import Mathlib

/-!
Verification development for the GrowDash backend core: a shallow
embedding of `app/services/csv_parser.py` (ingestion normalizer) and
`app/services/analytics.py` (FIFO position-matching and aggregation),
with theorems settling the specification claims about them.

Modelling conventions:
* Python `float` arithmetic is modelled with exact rationals (`ℚ`);
  Python `int` with `ℤ`/`ℕ`.
* Python strings are modelled with Lean `String`; `str.upper`/`str.lower`
  are modelled on the ASCII range (the data domain of the program).
* Naive `datetime.datetime` values are modelled by a calendar record with
  lexicographic comparison (the comparison semantics of valid Python
  datetimes); `timedelta` subtraction goes through a days-from-civil
  (rata die) conversion.
-/

/-! ### String helpers (models of `str.upper`, `str.strip`, `_normalize_col`) -/

/-- Model of Python `str.upper()` (ASCII domain). -/
def upperStr (s : String) : String := String.mk (s.data.map Char.toUpper)

/-- Model of Python `str.lower()` (ASCII domain). -/
def lowerStr (s : String) : String := String.mk (s.data.map Char.toLower)

/-- Model of Python `str.strip()`. -/
def stripStr (s : String) : String :=
  String.mk (((s.data.dropWhile Char.isWhitespace).reverse.dropWhile Char.isWhitespace).reverse)

/-- Model of `s.endswith(t)`. -/
def endsWithStr (s t : String) : Bool := t.data.isSuffixOf s.data

/-- `_normalize_col`: lower-case and strip every non-alphanumeric character. -/
def normalizeCol (s : String) : String :=
  String.mk ((s.data.map Char.toLower).filter (fun c => c.isAlphanum))

/-! ### Decimal formatting (models of `f"{x:.Nf}"` and `round(x, 2)`) -/

/-- Round a rational to the nearest integer, ties to even (the rounding used
by Python's float formatting and `round`). -/
def rheInt (q : ℚ) : ℤ :=
  let f := ⌊q⌋
  let r := q - (f : ℚ)
  if r < 1/2 then f
  else if 1/2 < r then f + 1
  else if f % 2 = 0 then f else f + 1

/-- Left-pad a numeral string with zeros to the given width. -/
def padZeros (s : String) (width : ℕ) : String :=
  String.mk (List.replicate (width - s.length) '0') ++ s

/-- Model of Python `f"{q:.df}"` fixed-point formatting of a number. -/
def formatFixed (d : ℕ) (q : ℚ) : String :=
  let scaled := rheInt (q * ((10 ^ d : ℕ) : ℚ))
  let m := scaled.natAbs
  (if q < 0 then "-" else "") ++ toString (m / 10 ^ d) ++ "." ++
    padZeros (toString (m % 10 ^ d)) d

/-- Model of Python `round(q, 2)`. -/
def round2 (q : ℚ) : ℚ := (rheInt (q * 100) : ℚ) / 100

/-! ### Dates and naive datetimes -/

/-- A Python `datetime.date`. -/
structure YmdDate where
  year : ℕ
  month : ℕ
  day : ℕ
deriving DecidableEq, Repr

/-- A naive Python `datetime.datetime` (microseconds are not modelled; the
program constructs second-resolution timestamps). -/
structure DateTime where
  date : YmdDate
  hour : ℕ
  minute : ℕ
  second : ℕ
deriving DecidableEq, Repr

def pad2 (n : ℕ) : String := padZeros (toString n) 2
def pad4 (n : ℕ) : String := padZeros (toString n) 4

/-- `date.isoformat()`. -/
def YmdDate.iso (d : YmdDate) : String :=
  pad4 d.year ++ "-" ++ pad2 d.month ++ "-" ++ pad2 d.day

/-- `datetime.isoformat()` for second-resolution naive datetimes. -/
def DateTime.iso (t : DateTime) : String :=
  t.date.iso ++ "T" ++ pad2 t.hour ++ ":" ++ pad2 t.minute ++ ":" ++ pad2 t.second

/-- Lexicographic strict order on datetimes: the comparison semantics of
Python `datetime` values. -/
def dtLt (a b : DateTime) : Prop :=
  a.date.year < b.date.year ∨ (a.date.year = b.date.year ∧
    (a.date.month < b.date.month ∨ (a.date.month = b.date.month ∧
      (a.date.day < b.date.day ∨ (a.date.day = b.date.day ∧
        (a.hour < b.hour ∨ (a.hour = b.hour ∧
          (a.minute < b.minute ∨ (a.minute = b.minute ∧
            a.second < b.second)))))))))

instance (a b : DateTime) : Decidable (dtLt a b) := by
  unfold dtLt; infer_instance

def dtLe (a b : DateTime) : Prop := dtLt a b ∨ a = b

instance (a b : DateTime) : Decidable (dtLe a b) := by
  unfold dtLe; infer_instance

def isLeapYear (y : ℕ) : Bool :=
  (y % 4 == 0 && y % 100 != 0) || y % 400 == 0

def daysInMonth (y m : ℕ) : ℕ :=
  if m = 2 then (if isLeapYear y then 29 else 28)
  else if m = 4 ∨ m = 6 ∨ m = 9 ∨ m = 11 then 30
  else 31

/-- Days since 1970-01-01 (Hinnant's days-from-civil algorithm), used to
model `timedelta` arithmetic between naive datetimes. -/
def rataDie (d : YmdDate) : ℤ :=
  let y : ℤ := if d.month ≤ 2 then (d.year : ℤ) - 1 else (d.year : ℤ)
  let era : ℤ := Int.fdiv y 400
  let yoe : ℤ := y - era * 400
  let mp : ℤ := Int.fmod ((d.month : ℤ) + 9) 12
  let doy : ℤ := Int.fdiv (153 * mp + 2) 5 + (d.day : ℤ) - 1
  let doe : ℤ := yoe * 365 + Int.fdiv yoe 4 - Int.fdiv yoe 100 + doy
  era * 146097 + doe - 719468

def dtToSecs (t : DateTime) : ℤ :=
  rataDie t.date * 86400 + t.hour * 3600 + t.minute * 60 + t.second

/-- `(b - a).total_seconds()` for naive datetimes. -/
def dtSecondsBetween (a b : DateTime) : ℤ := dtToSecs b - dtToSecs a

/-- `dt + timedelta(minutes=1)`. -/
def DateTime.addOneMinute (t : DateTime) : DateTime :=
  if t.minute < 59 then { t with minute := t.minute + 1 }
  else if t.hour < 23 then { t with hour := t.hour + 1, minute := 0 }
  else
    let d := t.date
    let d' :=
      if d.day < daysInMonth d.year d.month then { d with day := d.day + 1 }
      else if d.month < 12 then { d with month := d.month + 1, day := 1 }
      else YmdDate.mk (d.year + 1) 1 1
    { date := d', hour := 0, minute := 0, second := t.second }

/-- `datetime.combine(date, time(hour=h, minute=m))`. -/
def combineDate (d : YmdDate) (h m : ℕ) : DateTime :=
  { date := d, hour := h, minute := m, second := 0 }

/-! ### Analytics: data model (`app/services/analytics.py`) -/

/-- A persisted trade row as consumed by `calculate_trade_analytics`
(the relevant columns of the `Trade` db model). -/
structure Trade where
  id : ℕ
  symbol : String
  side : String
  quantity : ℤ
  price : ℚ
  traded_at : DateTime
  strike : Option ℚ
  option_type : Option String
  expiry : Option YmdDate
deriving DecidableEq, Repr

/-- `OpenLot` (analytics.py lines 14-18): quantity remaining, entry price,
opened-at timestamp. -/
structure OpenLot where
  quantity : ℕ
  price : ℚ
  opened_at : DateTime
deriving DecidableEq, Repr

/-- `_normalize_option_type` (analytics.py lines 21-30). -/
def normalizeOptionType (option_type : Option String) (symbol : String) : String :=
  let fromSymbol :=
    if endsWithStr (upperStr symbol) "CE" then "CE"
    else if endsWithStr (upperStr symbol) "PE" then "PE"
    else "UNKNOWN"
  match option_type with
  | some ot =>
      if ot ≠ "" ∧ (upperStr ot = "CE" ∨ upperStr ot = "PE") then upperStr ot
      else fromSymbol
  | none => fromSymbol

/-- An `InstrumentKey` (analytics.py `_instrument_key`, lines 33-39). -/
abbrev InstKey := String × String × String × String

/-- `_instrument_key` (analytics.py lines 33-39). -/
def instrumentKey (t : Trade) (ot : String) : InstKey :=
  (t.symbol,
   (match t.strike with | some v => formatFixed 2 v | none => ""),
   ot,
   (match t.expiry with | some d => d.iso | none => ""))

/-- A closed position dict (analytics.py lines 109-117/139-147).  The
`key` and `matched` fields record the in-scope instrument key and
`matched_qty` of the match event, exposed here so that per-key
conservation can be stated. -/
structure ClosedPos where
  closed_at : DateTime
  pnl : ℚ
  option_type : String
  strike : String
  holding_minutes : ℚ
  key : InstKey
  matched : ℕ
deriving DecidableEq, Repr

/-- The mutable matching state of `calculate_trade_analytics`: the two
per-key FIFO queues, the closed-position list and the strike-quantity
tally.  `opened` instruments the run with the total quantity of lots
ever appended per key (for the conservation claim). -/
structure EngineState where
  openLongs : InstKey → List OpenLot
  openShorts : InstKey → List OpenLot
  closed : List ClosedPos
  strikeQty : String → ℕ
  opened : InstKey → ℕ

def updFn {κ α : Type} [DecidableEq κ] (f : κ → α) (k : κ) (v : α) : κ → α :=
  fun k' => if k' = k then v else f k'

def initState : EngineState :=
  { openLongs := fun _ => [], openShorts := fun _ => [],
    closed := [], strikeQty := fun _ => 0, opened := fun _ => 0 }

/-- The inner `while remaining > 0 and queue:` matching loop of
`calculate_trade_analytics` (lines 101-122 for BUY, 131-152 for SELL;
`isBuy` selects the pnl sign).  Returns the closed positions recorded,
the queue left behind, and the remaining unmatched quantity. -/
def matchLoop (isBuy : Bool) (price : ℚ) (tAt : DateTime) (ot sk : String)
    (key : InstKey) : ℕ → List OpenLot → List ClosedPos × List OpenLot × ℕ
  | remaining, [] => ([], [], remaining)
  | remaining, lot :: rest =>
    if remaining = 0 then ([], lot :: rest, 0)
    else
      let matched := min remaining lot.quantity
      let pnl := (if isBuy then lot.price - price else price - lot.price) * (matched : ℚ)
      let c : ClosedPos :=
        { closed_at := tAt, pnl := pnl, option_type := ot, strike := sk,
          holding_minutes := max 0 (((dtSecondsBetween lot.opened_at tAt : ℤ) : ℚ) / 60),
          key := key, matched := matched }
      if lot.quantity - matched = 0 then
        let r := matchLoop isBuy price tAt ot sk key (remaining - matched) rest
        (c :: r.1, r.2.1, r.2.2)
      else
        ([c], { lot with quantity := lot.quantity - matched } :: rest, remaining - matched)

/-- One iteration of the `for trade in ordered_trades` loop of
`calculate_trade_analytics` (lines 80-157). -/
def step (s : EngineState) (t : Trade) : EngineState :=
  if t.quantity ≤ 0 then s
  else
    let side := upperStr t.side
    if side = "BUY" ∨ side = "SELL" then
      let qty : ℕ := t.quantity.toNat
      let ot := normalizeOptionType t.option_type t.symbol
      let strikeKey := match t.strike with | some v => formatFixed 2 v | none => "UNKNOWN"
      let s1 := { s with strikeQty := updFn s.strikeQty strikeKey (s.strikeQty strikeKey + qty) }
      let key := instrumentKey t ot
      if side = "BUY" then
        let r := matchLoop true t.price t.traded_at ot strikeKey key qty (s1.openShorts key)
        let s2 := { s1 with openShorts := updFn s1.openShorts key r.2.1,
                            closed := s1.closed ++ r.1 }
        if 0 < r.2.2 then
          { s2 with
            openLongs := updFn s2.openLongs key
              (s2.openLongs key ++ [⟨r.2.2, t.price, t.traded_at⟩]),
            opened := updFn s2.opened key (s2.opened key + r.2.2) }
        else s2
      else
        let r := matchLoop false t.price t.traded_at ot strikeKey key qty (s1.openLongs key)
        let s2 := { s1 with openLongs := updFn s1.openLongs key r.2.1,
                            closed := s1.closed ++ r.1 }
        if 0 < r.2.2 then
          { s2 with
            openShorts := updFn s2.openShorts key
              (s2.openShorts key ++ [⟨r.2.2, t.price, t.traded_at⟩]),
            opened := updFn s2.opened key (s2.opened key + r.2.2) }
        else s2
    else s

/-- `sorted(trades, key=lambda item: (item.traded_at, item.id))`
(analytics.py line 73). -/
def tradeOrder (a b : Trade) : Prop :=
  dtLt a.traded_at b.traded_at ∨ (a.traded_at = b.traded_at ∧ a.id ≤ b.id)

instance (a b : Trade) : Decidable (tradeOrder a b) := by
  unfold tradeOrder; infer_instance

def sortTrades (trades : List Trade) : List Trade :=
  trades.insertionSort tradeOrder

/-- The matching phase of `calculate_trade_analytics` on an
already-ordered trade list (the `for` loop of lines 80-157). -/
def runEngine (trades : List Trade) : EngineState :=
  trades.foldl step initState

/-! ### Analytics: aggregation (`calculate_trade_analytics`, lines 159-252) -/

/-- The pnl values of a closed-position list, in production order. -/
def pnls (cps : List ClosedPos) : List ℚ := cps.map (·.pnl)

/-- `wins` (analytics.py lines 165-178): the positive pnls, in order. -/
def winsOf (cps : List ClosedPos) : List ℚ := (pnls cps).filter (fun p => 0 < p)

/-- `losses` (analytics.py lines 166-180): absolute values of the negative
pnls, in order. -/
def lossesOf (cps : List ClosedPos) : List ℚ := ((pnls cps).filter (fun p => p < 0)).map (|·|)

/-- `win_rate` (analytics.py line 195). -/
def winRate (cps : List ClosedPos) : ℚ :=
  if cps.length ≠ 0 then ((winsOf cps).length : ℚ) / (cps.length : ℚ) * 100 else 0

/-- `average_profit` (analytics.py line 196). -/
def averageProfit (cps : List ClosedPos) : ℚ :=
  if (winsOf cps).length ≠ 0 then (winsOf cps).sum / ((winsOf cps).length : ℚ) else 0

/-- `average_loss` (analytics.py line 197). -/
def averageLoss (cps : List ClosedPos) : ℚ :=
  if (lossesOf cps).length ≠ 0 then (lossesOf cps).sum / ((lossesOf cps).length : ℚ) else 0

/-- `risk_reward_ratio` (analytics.py lines 198-200): `None` when the
average loss is not positive. -/
def riskReward (cps : List ClosedPos) : Option ℚ :=
  if 0 < averageLoss cps then some (averageProfit cps / averageLoss cps) else none

/-- `sorted(closed_positions, key=lambda item: item["closed_at"])`
(analytics.py line 184). -/
def sortClosed (cps : List ClosedPos) : List ClosedPos :=
  cps.insertionSort (fun a b => dtLe a.closed_at b.closed_at)

/-- One iteration of the drawdown loop (analytics.py lines 189-192) over
the running `(equity, peak, max_drawdown)` triple. -/
def mddStep (s : ℚ × ℚ × ℚ) (p : ℚ) : ℚ × ℚ × ℚ :=
  let e := s.1 + p
  let pk := max s.2.1 e
  (e, pk, max s.2.2 (pk - e))

/-- `max_drawdown` (analytics.py lines 184-192): replay the closed
positions ordered by closed-at with running equity and peak both
starting at 0. -/
def maxDrawdown (cps : List ClosedPos) : ℚ :=
  (((sortClosed cps).map (·.pnl)).foldl mddStep (0, 0, 0)).2.2

/-- Spec-side definition for the drawdown claim, written from the spec's
words: the running cumulative pnl after `i` steps. -/
def cumAt (ps : List ℚ) (i : ℕ) : ℚ := (ps.take i).sum

/-- Spec-side definition: the running peak of cumulative pnl after `i`
steps, with equity and peak starting at 0. -/
def peakAt (ps : List ℚ) (i : ℕ) : ℚ :=
  ((List.range (i + 1)).map (cumAt ps)).foldl max 0

/-- Spec-side definition: the maximum over the sequence of
(running peak of cumulative pnl − running cumulative pnl). -/
def specMdd (ps : List ℚ) : ℚ :=
  ((List.range (ps.length + 1)).map (fun i => peakAt ps i - cumAt ps i)).foldl max 0

/-- The summary block of the analytics snapshot (rounded output values,
analytics.py lines 218-228). -/
structure Summary where
  total_profit_loss : ℚ
  win_rate : ℚ
  average_profit : ℚ
  average_loss : ℚ
  risk_reward : Option ℚ
  max_drawdown : ℚ
deriving DecidableEq, Repr

/-- `trade_stats` (analytics.py lines 248-251). -/
structure TradeStats where
  total_trades : ℕ
  closed_lots : ℕ
deriving DecidableEq, Repr

/-- The analytics snapshot fields the verified claims are about
(the daily/monthly/strike/holding groupings are not claimed and are
omitted from the model). -/
structure Analytics where
  summary : Summary
  trade_stats : TradeStats
deriving DecidableEq, Repr

/-- `_build_empty_analytics` (analytics.py lines 42-66), restricted to the
modelled fields. -/
def emptyAnalytics : Analytics :=
  { summary := { total_profit_loss := 0, win_rate := 0, average_profit := 0,
                 average_loss := 0, risk_reward := none, max_drawdown := 0 },
    trade_stats := { total_trades := 0, closed_lots := 0 } }

/-- `calculate_trade_analytics` (analytics.py lines 69-252), restricted to
the modelled output fields. -/
def calculateTradeAnalytics (trades : List Trade) : Analytics :=
  if trades = [] then emptyAnalytics
  else
    let ordered := sortTrades trades
    let cps := (runEngine ordered).closed
    { summary :=
        { total_profit_loss := round2 (pnls cps).sum,
          win_rate := round2 (winRate cps),
          average_profit := round2 (averageProfit cps),
          average_loss := round2 (averageLoss cps),
          risk_reward := (riskReward cps).map round2,
          max_drawdown := round2 (maxDrawdown cps) },
      trade_stats := { total_trades := ordered.length, closed_lots := cps.length } }

/-! ### SHA-256 (model of `hashlib.sha256(...).hexdigest()`)

32-bit words are carried as natural numbers kept below `2 ^ 32` by
explicit reduction. -/

def w32 (n : ℕ) : ℕ := n % 2 ^ 32

def rotr32 (x n : ℕ) : ℕ := w32 ((x >>> n) ||| (x <<< (32 - n)))

def shaCh (e f g : ℕ) : ℕ := (e &&& f) ^^^ ((e ^^^ 4294967295) &&& g)
def shaMaj (a b c : ℕ) : ℕ := (a &&& b) ^^^ (a &&& c) ^^^ (b &&& c)
def bigSigma0 (a : ℕ) : ℕ := rotr32 a 2 ^^^ rotr32 a 13 ^^^ rotr32 a 22
def bigSigma1 (e : ℕ) : ℕ := rotr32 e 6 ^^^ rotr32 e 11 ^^^ rotr32 e 25
def smallSigma0 (x : ℕ) : ℕ := rotr32 x 7 ^^^ rotr32 x 18 ^^^ (x >>> 3)
def smallSigma1 (x : ℕ) : ℕ := rotr32 x 17 ^^^ rotr32 x 19 ^^^ (x >>> 10)

/-- The 64 SHA-256 round constants, in decimal. -/
def shaK : List ℕ :=
  [1116352408, 1899447441, 3049323471, 3921009573, 961987163,
   1508970993, 2453635748, 2870763221, 3624381080, 310598401,
   607225278, 1426881987, 1925078388, 2162078206, 2614888103,
   3248222580, 3835390401, 4022224774, 264347078, 604807628,
   770255983, 1249150122, 1555081692, 1996064986, 2554220882,
   2821834349, 2952996808, 3210313671, 3336571891, 3584528711,
   113926993, 338241895, 666307205, 773529912, 1294757372,
   1396182291, 1695183700, 1986661051, 2177026350, 2456956037,
   2730485921, 2820302411, 3259730800, 3345764771, 3516065817,
   3600352804, 4094571909, 275423344, 430227734, 506948616,
   659060556, 883997877, 958139571, 1322822218, 1537002063,
   1747873779, 1955562222, 2024104815, 2227730452, 2361852424,
   2428436474, 2756734187, 3204031479, 3329325298]

/-- The eight-word hash state. -/
structure ShaState where
  a : ℕ
  b : ℕ
  c : ℕ
  d : ℕ
  e : ℕ
  f : ℕ
  g : ℕ
  h : ℕ

/-- The eight SHA-256 initial hash values, in decimal. -/
def shaInit : ShaState :=
  ⟨1779033703, 3144134277, 1013904242, 2773480762,
   1359893119, 2600822924, 528734635, 1541459225⟩

/-- Message padding: append `0x80`, zeros to 56 mod 64, and the 64-bit
big-endian bit length. -/
def shaPad (msg : List ℕ) : List ℕ :=
  let len := msg.length
  let zeros := (64 + 56 - (len + 1) % 64) % 64
  let bitLen := len * 8
  msg ++ [128] ++ List.replicate zeros 0 ++
    ((List.range 8).map (fun i => (bitLen >>> (8 * (7 - i))) % 256))

/-- Split the padded message into 64-byte blocks. -/
def toBlocks (bytes : List ℕ) : List (List ℕ) :=
  if bytes = [] then []
  else bytes.take 64 :: toBlocks (bytes.drop 64)
termination_by bytes.length
decreasing_by
  simp only [List.length_drop]
  cases bytes with
  | nil => simp_all
  | cons x xs => simp; omega

/-- The 16 big-endian words of one 64-byte block. -/
def blockWords (block : List ℕ) : List ℕ :=
  (List.range 16).map (fun i =>
    block.getD (4 * i) 0 * 2 ^ 24 + block.getD (4 * i + 1) 0 * 2 ^ 16 +
    block.getD (4 * i + 2) 0 * 2 ^ 8 + block.getD (4 * i + 3) 0)

/-- Extend 16 words to the 64-word message schedule. -/
def msgSchedule (ws0 : List ℕ) : List ℕ :=
  (List.range 48).foldl
    (fun ws _ =>
      let n := ws.length
      ws ++ [w32 (smallSigma1 (ws.getD (n - 2) 0) + ws.getD (n - 7) 0 +
                  smallSigma0 (ws.getD (n - 15) 0) + ws.getD (n - 16) 0)])
    ws0

/-- One compression round. -/
def shaRound (s : ShaState) (kt wt : ℕ) : ShaState :=
  let t1 := w32 (s.h + bigSigma1 s.e + shaCh s.e s.f s.g + kt + wt)
  let t2 := w32 (bigSigma0 s.a + shaMaj s.a s.b s.c)
  ⟨w32 (t1 + t2), s.a, s.b, s.c, w32 (s.d + t1), s.e, s.f, s.g⟩

/-- Compress one block into the hash state. -/
def compressBlock (hs : ShaState) (block : List ℕ) : ShaState :=
  let ws := msgSchedule (blockWords block)
  let s := (List.range 64).foldl (fun s t => shaRound s (shaK.getD t 0) (ws.getD t 0)) hs
  ⟨w32 (hs.a + s.a), w32 (hs.b + s.b), w32 (hs.c + s.c), w32 (hs.d + s.d),
   w32 (hs.e + s.e), w32 (hs.f + s.f), w32 (hs.g + s.g), w32 (hs.h + s.h)⟩

/-- The SHA-256 digest of a byte sequence, as eight 32-bit words. -/
def sha256Words (msg : List ℕ) : List ℕ :=
  let s := (toBlocks (shaPad msg)).foldl compressBlock shaInit
  [s.a, s.b, s.c, s.d, s.e, s.f, s.g, s.h]

def hexDigit (n : ℕ) : Char := "0123456789abcdef".data.getD n '0'

/-- The eight lowercase hex characters of one 32-bit word. -/
def hex32 (w : ℕ) : List Char :=
  (List.range 8).map (fun i => hexDigit ((w >>> (4 * (7 - i))) % 16))

/-- `hashlib.sha256(msg).hexdigest()`. -/
def sha256hex (msg : List ℕ) : String :=
  String.mk ((sha256Words msg).flatMap hex32)

/-- UTF-8 encoding of one character (`str.encode("utf-8")`). -/
def utf8Char (c : Char) : List ℕ :=
  let n := c.toNat
  if n < 0x80 then [n]
  else if n < 0x800 then [0xc0 ||| (n >>> 6), 0x80 ||| (n &&& 0x3f)]
  else if n < 0x10000 then
    [0xe0 ||| (n >>> 12), 0x80 ||| ((n >>> 6) &&& 0x3f), 0x80 ||| (n &&& 0x3f)]
  else
    [0xf0 ||| (n >>> 18), 0x80 ||| ((n >>> 12) &&& 0x3f),
     0x80 ||| ((n >>> 6) &&& 0x3f), 0x80 ||| (n &&& 0x3f)]

/-- `s.encode("utf-8")`. -/
def utf8Bytes (s : String) : List ℕ := s.data.flatMap utf8Char

/-! ### Ingestion: numeric parsing and instrument inference
(`app/services/csv_parser.py`) -/

def digitsVal (ds : List Char) : ℕ := ds.foldl (fun a c => a * 10 + (c.toNat - 48)) 0

/-- Decimal-literal parsing, modelling `pd.to_numeric(text, errors="coerce")`
on an already comma-stripped, stripped string: optional sign, decimal
mantissa, optional exponent; anything else coerces to `None`. -/
def parseDecimal (t : List Char) : Option ℚ :=
  let signAndRest : ℚ × List Char :=
    match t with
    | '-' :: r => (-1, r)
    | '+' :: r => (1, r)
    | r => (1, r)
  let sign := signAndRest.1
  let ip := signAndRest.2.takeWhile Char.isDigit
  let t2 := signAndRest.2.dropWhile Char.isDigit
  let fracAndRest : List Char × List Char :=
    match t2 with
    | '.' :: r => (r.takeWhile Char.isDigit, r.dropWhile Char.isDigit)
    | r => ([], r)
  let fp := fracAndRest.1
  let t3 := fracAndRest.2
  if ip = [] ∧ fp = [] then none
  else
    let mant : ℚ := (digitsVal ip : ℚ) + (digitsVal fp : ℚ) / ((10 : ℚ) ^ fp.length)
    match t3 with
    | [] => some (sign * mant)
    | e :: r =>
      if e = 'e' ∨ e = 'E' then
        let esignAndRest : ℤ × List Char :=
          match r with
          | '-' :: r2 => (-1, r2)
          | '+' :: r2 => (1, r2)
          | r2 => (1, r2)
        let ed := esignAndRest.2.takeWhile Char.isDigit
        if ed = [] ∨ esignAndRest.2.dropWhile Char.isDigit ≠ [] then none
        else some (sign * mant * (10 : ℚ) ^ (esignAndRest.1 * (digitsVal ed : ℤ)))
      else none

/-- `_parse_numeric` (csv_parser.py lines 150-159) on a cell string. -/
def parseNumeric (s : String) : Option ℚ :=
  let t := (stripStr s).data.filter (fun c => c ≠ ',')
  if t = [] then none else parseDecimal t

/-- A regex word character (`\w`), for `\b` boundaries. -/
def wordChar (c : Char) : Bool := c.isAlphanum || c == '_'

def boundaryAfter : List Char → Bool
  | [] => true
  | c :: _ => !wordChar c

/-- Try `(\d+(?:\.\d+)?)(CE|PE)\b` anchored at the head of `cs`.  The
digit runs are maximal, which coincides with the regex's greedy
backtracking semantics here (a shorter digit take always leaves a digit
next, which can start none of `.`, `C`, `P`). -/
def numCEPEAt (cs : List Char) : Option (ℚ × String) :=
  let ip := cs.takeWhile Char.isDigit
  if ip = [] then none
  else
    let r1 := cs.dropWhile Char.isDigit
    let fracAndRest : List Char × List Char :=
      match r1 with
      | '.' :: r2 =>
        let fp := r2.takeWhile Char.isDigit
        if fp = [] then ([], r1) else (fp, r2.dropWhile Char.isDigit)
      | _ => ([], r1)
    let value : ℚ := (digitsVal ip : ℚ) +
      (digitsVal fracAndRest.1 : ℚ) / ((10 : ℚ) ^ fracAndRest.1.length)
    match fracAndRest.2 with
    | 'C' :: 'E' :: r3 => if boundaryAfter r3 then some (value, "CE") else none
    | 'P' :: 'E' :: r3 => if boundaryAfter r3 then some (value, "PE") else none
    | _ => none

/-- Leftmost search for `numCEPEAt` (the semantics of `re.search`). -/
def searchNumCEPE : List Char → Option (ℚ × String)
  | [] => none
  | c :: rest =>
    match numCEPEAt (c :: rest) with
    | some x => some x
    | none => searchNumCEPE rest

/-- Try `(\d+(?:\.\d+)?)\s*(CALL|PUT)\b` anchored at the head of `cs`. -/
def numCallPutAt (cs : List Char) : Option (ℚ × String) :=
  let ip := cs.takeWhile Char.isDigit
  if ip = [] then none
  else
    let r1 := cs.dropWhile Char.isDigit
    let fracAndRest : List Char × List Char :=
      match r1 with
      | '.' :: r2 =>
        let fp := r2.takeWhile Char.isDigit
        if fp = [] then ([], r1) else (fp, r2.dropWhile Char.isDigit)
      | _ => ([], r1)
    let value : ℚ := (digitsVal ip : ℚ) +
      (digitsVal fracAndRest.1 : ℚ) / ((10 : ℚ) ^ fracAndRest.1.length)
    match fracAndRest.2.dropWhile Char.isWhitespace with
    | 'C' :: 'A' :: 'L' :: 'L' :: r3 => if boundaryAfter r3 then some (value, "CE") else none
    | 'P' :: 'U' :: 'T' :: r3 => if boundaryAfter r3 then some (value, "PE") else none
    | _ => none

def searchNumCallPut : List Char → Option (ℚ × String)
  | [] => none
  | c :: rest =>
    match numCallPutAt (c :: rest) with
    | some x => some x
    | none => searchNumCallPut rest

/-- `_extract_option_meta` (csv_parser.py lines 79-95). -/
def extractOptionMeta (symbol : String) : Option ℚ × Option String :=
  if symbol = "" then (none, none)
  else
    let upper := (upperStr symbol).data
    let compact := upper.filter (fun c => !c.isWhitespace)
    match searchNumCEPE compact with
    | some (v, ot) => (some v, some ot)
    | none =>
      match searchNumCallPut upper with
      | some (v, ot) => (some v, some ot)
      | none => (none, none)

def isUpperAZ (c : Char) : Bool := 'A' ≤ c && c ≤ 'Z'

def monthAbbrs : List String :=
  ["JAN", "FEB", "MAR", "APR", "MAY", "JUN",
   "JUL", "AUG", "SEP", "OCT", "NOV", "DEC"]

/-- Month number of an (upper-cased) three-letter abbreviation, modelling
`strptime`'s `%b` after `.title()`. -/
def monthNum (abbr : String) : Option ℕ :=
  if abbr ∈ monthAbbrs then some (monthAbbrs.indexOf abbr + 1) else none

/-- Try `\b(\d{1,2})\s+([A-Z]{3})\s+(\d{2,4})\b` anchored at the head,
`prev` being the character before the anchor.  Greedy `\d{1,2}` with
backtracking succeeds exactly on maximal digit runs of length 1-2
(a shorter take leaves a digit where `\s+` is required), and likewise
`\d{2,4}` on maximal runs of length 2-4 followed by a non-word char. -/
def expiryAt (prev : Option Char) (cs : List Char) : Option (ℕ × String × List Char) :=
  let boundaryBefore := match prev with | none => true | some c => !wordChar c
  if !boundaryBefore then none
  else
    let ds := cs.takeWhile Char.isDigit
    if ds.length = 0 ∨ 2 < ds.length then none
    else
      let r1 := cs.dropWhile Char.isDigit
      let ws1 := r1.takeWhile Char.isWhitespace
      if ws1 = [] then none
      else
        match r1.dropWhile Char.isWhitespace with
        | a :: b :: c :: r2 =>
          if isUpperAZ a && isUpperAZ b && isUpperAZ c then
            let ws2 := r2.takeWhile Char.isWhitespace
            if ws2 = [] then none
            else
              let r3 := r2.dropWhile Char.isWhitespace
              let ys := r3.takeWhile Char.isDigit
              if ys.length < 2 ∨ 4 < ys.length then none
              else if boundaryAfter (r3.dropWhile Char.isDigit) then
                some (digitsVal ds, String.mk [a, b, c], ys)
              else none
          else none
        | _ => none

def searchExpiry : Option Char → List Char → Option (ℕ × String × List Char)
  | _, [] => none
  | prev, c :: rest =>
    match expiryAt prev (c :: rest) with
    | some x => some x
    | none => searchExpiry (some c) rest

/-- `_extract_expiry_from_symbol` (csv_parser.py lines 98-122).  The final
`pd.to_datetime(..., format="%d %b %Y", errors="coerce")` is modelled as
calendar validation; the pandas `Timestamp` year range is approximated by
`1678 ≤ year ≤ 2261`. -/
def extractExpiryFromSymbol (symbol : String) : Option YmdDate :=
  if symbol = "" then none
  else
    match searchExpiry none (upperStr symbol).data with
    | none => none
    | some (day, abbr, ys) =>
      let year0 := digitsVal ys
      let year := if ys.length = 2 then year0 + 2000 else year0
      match monthNum abbr with
      | none => none
      | some m =>
        if 1 ≤ day ∧ day ≤ daysInMonth year m ∧ 1678 ≤ year ∧ year ≤ 2261 then
          some ⟨year, m, day⟩
        else none

/-! ### Ingestion: canonical trade records and the statement parser -/

/-- A canonical trade record as returned by `_build_trade_record`
(csv_parser.py lines 174-209); `raw_payload` dicts are modelled as
ordered association lists. -/
structure TradeRecord where
  trade_hash : String
  order_id : Option String
  symbol : String
  exchange : Option String
  segment : Option String
  side : String
  quantity : ℤ
  price : ℚ
  traded_at : DateTime
  strike : Option ℚ
  option_type : Option String
  expiry : Option YmdDate
  raw_payload : List (String × String)
deriving DecidableEq, Repr

/-- Python `x or ""` on an optional string. -/
def orEmpty : Option String → String
  | none => ""
  | some s => s

/-- Python `x or None` on an optional string. -/
def orNoneStr : Option String → Option String
  | some "" => none
  | v => v

/-- The `dedupe_basis` f-string of `_build_trade_record`
(csv_parser.py lines 189-192). -/
def hashBasis (order_id : Option String) (symbol side : String) (quantity : ℤ)
    (price : ℚ) (traded_at : DateTime) : String :=
  orEmpty order_id ++ "|" ++ symbol ++ "|" ++ side ++ "|" ++ toString quantity ++ "|" ++
    formatFixed 8 price ++ "|" ++ traded_at.iso

/-- `_build_trade_record` (csv_parser.py lines 174-209). -/
def buildTradeRecord (symbol side : String) (quantity : ℤ) (price : ℚ)
    (traded_at : DateTime) (order_id exchange segment : Option String)
    (strike : Option ℚ) (option_type : Option String) (expiry : Option YmdDate)
    (raw_payload : List (String × String)) : TradeRecord :=
  { trade_hash := sha256hex (utf8Bytes (hashBasis order_id symbol side quantity price traded_at)),
    order_id := orNoneStr order_id,
    symbol := symbol,
    exchange := orNoneStr exchange,
    segment := orNoneStr segment,
    side := side,
    quantity := quantity,
    price := price,
    traded_at := traded_at,
    strike := strike,
    option_type := option_type,
    expiry := expiry,
    raw_payload := raw_payload }

/-- `STATEMENT_STOP_TOKENS` (csv_parser.py lines 29-36). -/
def stmtStopTokens : List String :=
  ["total", "summary", "charges", "disclaimer",
   "realisedtradestradelevel", "realisedtradescontractlevel"]

/-- The column indices a qualifying statement header resolves
(csv_parser.py lines 314-319). -/
structure StmtCols where
  symbolIdx : ℕ
  quantityIdx : ℕ
  buyPriceIdx : ℕ
  sellPriceIdx : ℕ
  buyDateIdx : Option ℕ
  sellDateIdx : Option ℕ
deriving DecidableEq, Repr

/-- Lookup in the `header_map` dict comprehension of
`_parse_realized_statement_csv` (lines 307-312): the index of the last
cell whose normalized form equals `key` (later dict entries overwrite
earlier ones). -/
def lastIdxOf (cells : List String) (key : String) : Option ℕ :=
  (cells.enum.filterMap (fun p => if normalizeCol p.2 = key then some p.1 else none)).getLast?

/-- Header qualification (csv_parser.py lines 314-327): a row is a block
header when it resolves symbol, quantity, a buy price and a sell price. -/
def headerCols (row : List String) : Option StmtCols :=
  match lastIdxOf row "scripname", lastIdxOf row "quantity",
        (lastIdxOf row "buyprice").orElse (fun _ => lastIdxOf row "avgbuyprice"),
        (lastIdxOf row "sellprice").orElse (fun _ => lastIdxOf row "avgsellprice") with
  | some s, some q, some bp, some sp =>
      some ⟨s, q, bp, sp, lastIdxOf row "buydate", lastIdxOf row "selldate"⟩
  | _, _, _, _ => none

/-- `data_row[idx] if idx < len(data_row) else ""`. -/
def cellAt (row : List String) (i : ℕ) : String := row.getD i ""

def isBlankRow (row : List String) : Bool := row.all (fun c => c == "")

/-- Emission of the synthetic BUY/SELL pair for one qualifying statement
data row (csv_parser.py lines 384-424): BUY at 09:15 of the buy date,
SELL at 15:15 of the sell date, the sell timestamp pushed to
buy + 1 minute when it does not strictly exceed the buy timestamp. -/
def emitPair (sourceFormat symbol : String) (quantity : ℕ) (buyPrice sellPrice : ℚ)
    (strike : Option ℚ) (optionType : Option String) (expiry : Option YmdDate)
    (segment : Option String) (buyDate sellDate : YmdDate)
    (cellsPayload : List (String × String)) : List TradeRecord :=
  let buyDt := combineDate buyDate 9 15
  let sellDt0 := combineDate sellDate 15 15
  let sellDt := if dtLe sellDt0 buyDt then buyDt.addOneMinute else sellDt0
  let payload := cellsPayload ++ [("source_format", sourceFormat)]
  [buildTradeRecord symbol "BUY" quantity buyPrice buyDt none none segment
     strike optionType expiry (payload ++ [("synthetic_side", "BUY")]),
   buildTradeRecord symbol "SELL" quantity sellPrice sellDt none none segment
     strike optionType expiry (payload ++ [("synthetic_side", "SELL")])]

/-- The inner data-row loop of `_parse_realized_statement_csv`
(lines 336-428) under one qualifying header: returns the emitted trades
and the number of data rows consumed (the terminating blank/stop row is
not consumed; the outer scan resumes at it).  `parseDate` models
`_parse_statement_date` (a pandas free-form date parse) and `today`
models `date.today()`. -/
def readBlock (cols : StmtCols) (sourceFormat : String) (headerRow : List String)
    (parseDate : String → Option YmdDate) (today : YmdDate) :
    List (List String) → List TradeRecord × ℕ
  | [] => ([], 0)
  | row :: rest =>
    if isBlankRow row then ([], 0)
    else
      let symbol := cellAt row cols.symbolIdx
      let tok := normalizeCol symbol
      if symbol = "" then
        let r := readBlock cols sourceFormat headerRow parseDate today rest
        (r.1, r.2 + 1)
      else if tok ∈ ["scripname", "futures", "options"] then
        let r := readBlock cols sourceFormat headerRow parseDate today rest
        (r.1, r.2 + 1)
      else if tok ∈ stmtStopTokens then ([], 0)
      else
        match parseNumeric (cellAt row cols.quantityIdx),
              parseNumeric (cellAt row cols.buyPriceIdx),
              parseNumeric (cellAt row cols.sellPriceIdx) with
        | some qv, some bv, some sv =>
          let quantity := (⌊|qv|⌋).toNat
          if quantity = 0 then
            let r := readBlock cols sourceFormat headerRow parseDate today rest
            (r.1, r.2 + 1)
          else
            let meta := extractOptionMeta symbol
            let expiry := extractExpiryFromSymbol symbol
            let segment : Option String :=
              match meta.2 with
              | some o => if o = "CE" ∨ o = "PE" then some "OPTIONS" else none
              | none => none
            let fallbackDate := expiry.getD today
            let buyDateV : Option YmdDate :=
              match cols.buyDateIdx with
              | some i => if i < row.length then parseDate (cellAt row i) else none
              | none => none
            let sellDateV : Option YmdDate :=
              match cols.sellDateIdx with
              | some i => if i < row.length then parseDate (cellAt row i) else none
              | none => none
            let buyDate := buyDateV.getD fallbackDate
            let sellDate := sellDateV.getD buyDate
            let cellsPayload := (List.range headerRow.length).map (fun i =>
              (if cellAt headerRow i = "" then "col_" ++ toString i else cellAt headerRow i,
               cellAt row i))
            let r := readBlock cols sourceFormat headerRow parseDate today rest
            (emitPair sourceFormat symbol quantity bv sv meta.1 meta.2 expiry segment
               buyDate sellDate cellsPayload ++ r.1, r.2 + 1)
        | _, _, _ =>
          let r := readBlock cols sourceFormat headerRow parseDate today rest
          (r.1, r.2 + 1)

/-- The outer header-seeking loop of `_parse_realized_statement_csv`
(lines 305-430) over the stripped rows. -/
def scanRows (parseDate : String → Option YmdDate) (today : YmdDate) :
    List (List String) → List TradeRecord
  | [] => []
  | row :: rest =>
    match headerCols row with
    | none => scanRows parseDate today rest
    | some cols =>
      let sourceFormat :=
        if cols.buyDateIdx.isSome ∧ cols.sellDateIdx.isSome then "trade_level"
        else "contract_level"
      let r := readBlock cols sourceFormat row parseDate today rest
      r.1 ++ scanRows parseDate today (rest.drop r.2)
termination_by rows => rows.length
decreasing_by
  all_goals simp only [List.length_cons, List.length_drop]
  all_goals omega

/-- `_parse_realized_statement_csv` (lines 296-430) after `csv.reader`:
cells arrive as a row list and are stripped (`_safe_string`) up front. -/
def parseRealizedStatement (parseDate : String → Option YmdDate) (today : YmdDate)
    (rows : List (List String)) : List TradeRecord :=
  scanRows parseDate today (rows.map (fun r => r.map stripStr))

/-- `parse_tradebook_csv` (csv_parser.py lines 433-453) as a function of
the two path outcomes: the flat-table path result (a parse error or a
trade list) and the statement-block path result. -/
def parseTradebookDispatch {α : Type} (standard : Except String (List α))
    (statement : List α) : Except String (List α) :=
  match standard with
  | .ok ts =>
    if !ts.isEmpty then .ok ts
    else if !statement.isEmpty then .ok statement
    else .ok []
  | .error e =>
    if !statement.isEmpty then .ok statement
    else .error e

/-! ### Derived definitions used by the claim statements -/

/-- The `option_type` stored by the flat-table row normalizer
(csv_parser.py lines 262-266): the symbol-inferred option type, overridden
by an explicit column value exactly when that value upper-cases to CE/PE. -/
def ingestedOptionType (sym : String) (explicitRaw : Option String) : Option String :=
  match explicitRaw with
  | some raw =>
    if upperStr (stripStr raw) = "CE" ∨ upperStr (stripStr raw) = "PE" then
      some (upperStr (stripStr raw))
    else (extractOptionMeta sym).2
  | none => (extractOptionMeta sym).2

def isLowerHexChar (c : Char) : Bool := "0123456789abcdef".data.contains c

/-- Total quantity held in a lot queue. -/
def lotQty (q : List OpenLot) : ℕ := (q.map (·.quantity)).sum

/-- Total matched (closed) quantity recorded for one instrument key. -/
def matchedQty (cps : List ClosedPos) (k : InstKey) : ℕ :=
  ((cps.filter (fun c => c.key = k)).map (·.matched)).sum

/-- Per-key conservation: quantity opened = quantity matched + quantity
remaining in the long and short queues. -/
def consInv (s : EngineState) : Prop :=
  ∀ k, s.opened k = matchedQty s.closed k + lotQty (s.openLongs k) + lotQty (s.openShorts k)

/-- The condition under which the statement data-row loop actually stops:
a blank row, or a non-empty symbol-column cell normalizing to a stop
token. -/
def stmtStopHere (cols : StmtCols) (row : List String) : Bool :=
  isBlankRow row ||
    (decide (¬ cellAt row cols.symbolIdx = "") &&
     decide (normalizeCol (cellAt row cols.symbolIdx) ∈ stmtStopTokens))

/-- Scenario E input: two BUYs (60@100, 60@102) then SELL 100@110 on one
instrument, in time order. -/
def scenarioETrades : List Trade :=
  [{ id := 1, symbol := "XYZ", side := "BUY", quantity := 60, price := 100,
     traded_at := ⟨⟨2024, 1, 15⟩, 10, 0, 0⟩, strike := none, option_type := none, expiry := none },
   { id := 2, symbol := "XYZ", side := "BUY", quantity := 60, price := 102,
     traded_at := ⟨⟨2024, 1, 15⟩, 10, 5, 0⟩, strike := none, option_type := none, expiry := none },
   { id := 3, symbol := "XYZ", side := "SELL", quantity := 100, price := 110,
     traded_at := ⟨⟨2024, 1, 15⟩, 10, 30, 0⟩, strike := none, option_type := none, expiry := none }]

def scenarioEKey : InstKey := ("XYZ", "", "UNKNOWN", "")

/-- A statement document whose data row has first cell "total" but its
symbol-column cell (column 1) a real scrip. -/
def c7Rows : List (List String) :=
  [["note", "scrip name", "quantity", "buy price", "sell price"],
   ["total", "XYZ100CE", "10", "1", "2"]]

/-! ### Helper lemmas -/

lemma dtLt_addOneMinute (t : DateTime) : dtLt t t.addOneMinute := by
  obtain ⟨⟨y, mo, d⟩, h, mi, s⟩ := t
  simp only [DateTime.addOneMinute, dtLt]
  split_ifs <;> simp_all

lemma dtLt_of_not_dtLe {a b : DateTime} (h : ¬ dtLe a b) : dtLt b a := by
  obtain ⟨⟨ay, am, ad⟩, ah, ami, asec⟩ := a
  obtain ⟨⟨by_, bm, bd⟩, bh, bmi, bsec⟩ := b
  simp only [dtLe, dtLt, not_or, DateTime.mk.injEq, YmdDate.mk.injEq] at *
  omega

/-! ### Claim theorems -/

/-- C1: FIFO matching, Scenario E.  For the trade sequence
[BUY 60@100, BUY 60@102, SELL 100@110] on one instrument key, processed
in time order, the engine produces exactly two closed positions in
order: 60 units matched against the older lot with pnl 600, then 40
units against the second lot with pnl 320; the second lot remains open
with 20 units. -/
theorem fifo_scenario_e :
    (runEngine (sortTrades scenarioETrades)).closed =
      [{ closed_at := ⟨⟨2024, 1, 15⟩, 10, 30, 0⟩, pnl := 600, option_type := "UNKNOWN",
         strike := "UNKNOWN", holding_minutes := 30, key := scenarioEKey, matched := 60 },
       { closed_at := ⟨⟨2024, 1, 15⟩, 10, 30, 0⟩, pnl := 320, option_type := "UNKNOWN",
         strike := "UNKNOWN", holding_minutes := 25, key := scenarioEKey, matched := 40 }]
    ∧ (runEngine (sortTrades scenarioETrades)).openLongs scenarioEKey =
        [{ quantity := 20, price := 102, opened_at := ⟨⟨2024, 1, 15⟩, 10, 5, 0⟩ }]
    ∧ (runEngine (sortTrades scenarioETrades)).openShorts scenarioEKey = [] := by
  refine ⟨?_, ?_, ?_⟩ <;> with_unfolding_all rfl

/-- C4: the ingestion dispatcher returns a non-empty flat-table result
directly; on a flat-table error or empty result it falls back to the
statement path and returns its non-empty result; with both paths empty
it re-raises the remembered flat-table error if any, else returns an
empty list without error. -/
theorem ingestion_dispatch_cases :
    (∀ (α : Type) (t : α) (ts rest : List α),
        parseTradebookDispatch (.ok (t :: ts)) rest = .ok (t :: ts))
    ∧ (∀ (α : Type) (e : String) (t : α) (ts : List α),
        parseTradebookDispatch (.error e) (t :: ts) = .ok (t :: ts))
    ∧ (∀ (α : Type) (t : α) (ts : List α),
        parseTradebookDispatch (.ok ([] : List α)) (t :: ts) = .ok (t :: ts))
    ∧ (∀ (α : Type) (e : String),
        parseTradebookDispatch (α := α) (.error e) [] = .error e)
    ∧ (∀ (α : Type),
        parseTradebookDispatch (α := α) (.ok []) [] = .ok []) := by
  refine ⟨?_, ?_, ?_, ?_, ?_⟩ <;> intros <;> rfl

/-- C8: every qualifying statement data row emits exactly two canonical
trades with the same quantity and instrument metadata — a BUY at 09:15
of the buy date and a SELL at 15:15 of the sell date — and whenever the
synthesized sell timestamp is not strictly greater than the buy
timestamp it is replaced by buy + 1 minute, so the emitted SELL's
traded-at always strictly exceeds the emitted BUY's. -/
theorem synthetic_pair_emission :
    ∀ (sf symbol : String) (quantity : ℕ) (bp sp : ℚ) (strike : Option ℚ)
      (ot : Option String) (expiry : Option YmdDate) (segment : Option String)
      (bd sd : YmdDate) (payload : List (String × String)),
      ∃ b s, emitPair sf symbol quantity bp sp strike ot expiry segment bd sd payload = [b, s]
        ∧ b.side = "BUY" ∧ s.side = "SELL"
        ∧ b.quantity = (quantity : ℤ) ∧ s.quantity = (quantity : ℤ)
        ∧ b.price = bp ∧ s.price = sp
        ∧ b.symbol = symbol ∧ s.symbol = symbol
        ∧ b.strike = strike ∧ s.strike = strike
        ∧ b.option_type = ot ∧ s.option_type = ot
        ∧ b.expiry = expiry ∧ s.expiry = expiry
        ∧ b.segment = orNoneStr segment ∧ s.segment = orNoneStr segment
        ∧ b.traded_at = combineDate bd 9 15
        ∧ s.traded_at = (if dtLe (combineDate sd 15 15) (combineDate bd 9 15)
            then (combineDate bd 9 15).addOneMinute else combineDate sd 15 15)
        ∧ b.raw_payload = payload ++ [("source_format", sf)] ++ [("synthetic_side", "BUY")]
        ∧ s.raw_payload = payload ++ [("source_format", sf)] ++ [("synthetic_side", "SELL")]
        ∧ dtLt b.traded_at s.traded_at := by
  intro sf symbol quantity bp sp strike ot expiry segment bd sd payload
  refine ⟨_, _, rfl, rfl, rfl, rfl, rfl, rfl, rfl, rfl, rfl, rfl, rfl, rfl, rfl,
    rfl, rfl, rfl, rfl, rfl, rfl, rfl, rfl, ?_⟩
  by_cases h : dtLe (combineDate sd 15 15) (combineDate bd 9 15)
  · simp only [emitPair, buildTradeRecord, if_pos h]
    exact dtLt_addOneMinute _
  · simp only [emitPair, buildTradeRecord, if_neg h]
    exact dtLt_of_not_dtLe h

/-- C6 counterexample: the symbol "RELIANCE" yields no strike/option-type
from Instrument Inference and has no explicit option-type, yet the
option type used for classification is "CE" (the classifier's own
`endswith` fallback), not "UNKNOWN" as the claim states. -/
theorem option_type_default_cex :
    extractOptionMeta "RELIANCE" = (none, none)
    ∧ normalizeOptionType (ingestedOptionType "RELIANCE" none) "RELIANCE" = "CE"
    ∧ normalizeOptionType (ingestedOptionType "RELIANCE" none) "RELIANCE" ≠ "UNKNOWN" := by
  refine ⟨?_, ?_, ?_⟩ <;> with_unfolding_all decide

/-- C6 amended: for every trade whose symbol yields no option type from
Instrument Inference and whose explicit option-type column (if any) is
not CE or PE, the option type used for classification is CE when the
upper-cased symbol ends with "CE", PE when it ends with "PE", and
UNKNOWN otherwise. -/
theorem option_type_default_amended (sym : String) (explicitRaw : Option String)
    (hinf : (extractOptionMeta sym).2 = none)
    (hexp : ∀ r, explicitRaw = some r →
      upperStr (stripStr r) ≠ "CE" ∧ upperStr (stripStr r) ≠ "PE") :
    normalizeOptionType (ingestedOptionType sym explicitRaw) sym =
      (if endsWithStr (upperStr sym) "CE" then "CE"
       else if endsWithStr (upperStr sym) "PE" then "PE"
       else "UNKNOWN") := by
  have hstored : ingestedOptionType sym explicitRaw = none := by
    cases explicitRaw with
    | none => simpa [ingestedOptionType] using hinf
    | some r =>
      have h := hexp r rfl
      simp [ingestedOptionType, h.1, h.2, hinf]
  rw [hstored]
  rfl

/-- Witness for `option_type_default_amended` at symbol "NIFTYFUT"
(ends in neither CE nor PE) with no explicit option-type column. -/
theorem option_type_default_amended_witness :
    normalizeOptionType (ingestedOptionType "NIFTYFUT" none) "NIFTYFUT" = "UNKNOWN" :=
  (option_type_default_amended "NIFTYFUT" none (by with_unfolding_all decide)
    (fun r hr => by cases hr)).trans (by with_unfolding_all decide)

lemma isLowerHexChar_hexDigit (n : ℕ) : isLowerHexChar (hexDigit n) = true := by
  by_cases hn : n < 16
  · interval_cases n <;> decide
  · unfold hexDigit
    rw [List.getD_eq_default]
    · decide
    · simpa using Nat.le_of_not_lt hn

lemma hex32_length (w : ℕ) : (hex32 w).length = 8 := by
  simp [hex32]

lemma mem_hex32 {c : Char} {w : ℕ} (h : c ∈ hex32 w) : isLowerHexChar c = true := by
  rcases List.mem_map.mp h with ⟨i, _, hi⟩
  rw [← hi]
  exact isLowerHexChar_hexDigit _

lemma sha256hex_length (m : List ℕ) : (sha256hex m).length = 64 := by
  unfold sha256hex sha256Words
  simp [String.length, List.flatMap_cons, List.flatMap_nil, hex32_length]

lemma sha256hex_all_hex (m : List ℕ) : (sha256hex m).data.all isLowerHexChar = true := by
  unfold sha256hex
  rw [List.all_eq_true]
  intro c hc
  have hc' : c ∈ (sha256Words m).flatMap hex32 := hc
  rcases List.mem_flatMap.mp hc' with ⟨w, _, hcw⟩
  exact mem_hex32 hcw

/-- C3: for every canonical trade record built through
`_build_trade_record` (the single record constructor both ingestion
paths go through), `trade_hash` is the lowercase 64-hex-character
SHA-256 digest of the UTF-8 string
`"{order_id or empty}|{symbol}|{side}|{quantity}|{price formatted to 8
decimals}|{traded_at in ISO-8601}"`, and it depends on exactly those six
fields: any variation of the remaining arguments leaves it unchanged. -/
theorem trade_hash_spec :
    ∀ (symbol side : String) (quantity : ℤ) (price : ℚ) (traded_at : DateTime)
      (order_id exchange segment : Option String) (strike : Option ℚ)
      (option_type : Option String) (expiry : Option YmdDate)
      (payload : List (String × String))
      (exchange' segment' : Option String) (strike' : Option ℚ)
      (option_type' : Option String) (expiry' : Option YmdDate)
      (payload' : List (String × String)),
      (buildTradeRecord symbol side quantity price traded_at order_id exchange segment
          strike option_type expiry payload).trade_hash
        = sha256hex (utf8Bytes
            (orEmpty order_id ++ "|" ++ symbol ++ "|" ++ side ++ "|" ++ toString quantity
              ++ "|" ++ formatFixed 8 price ++ "|" ++ traded_at.iso))
      ∧ (buildTradeRecord symbol side quantity price traded_at order_id exchange' segment'
            strike' option_type' expiry' payload').trade_hash
          = (buildTradeRecord symbol side quantity price traded_at order_id exchange segment
              strike option_type expiry payload).trade_hash
      ∧ (buildTradeRecord symbol side quantity price traded_at order_id exchange segment
            strike option_type expiry payload).trade_hash.length = 64
      ∧ (buildTradeRecord symbol side quantity price traded_at order_id exchange segment
            strike option_type expiry payload).trade_hash.data.all isLowerHexChar = true := by
  intros
  exact ⟨rfl, rfl, sha256hex_length _, sha256hex_all_hex _⟩

lemma winsOf_length (cps : List ClosedPos) :
    (winsOf cps).length = cps.countP (fun c => decide (0 < c.pnl)) := by
  simp only [winsOf, pnls, List.filter_map, List.countP_eq_length_filter, List.length_map]
  rfl

/-- C9: win rate is (count of positive-pnl positions) / (total closed) ×
100 and 0 with no closed positions; average profit is the mean of the
positive pnls (0 if none); average loss is the mean of the absolute
negative pnls (0 if none); the risk-reward ratio is average profit /
average loss when the average loss is positive and absent (None)
otherwise. -/
theorem summary_ratio_guards :
    ∀ cps : List ClosedPos,
      winRate cps = (if cps = [] then 0 else
        (cps.countP (fun c => decide (0 < c.pnl)) : ℚ) / (cps.length : ℚ) * 100)
      ∧ averageProfit cps =
          (if winsOf cps = [] then 0 else (winsOf cps).sum / ((winsOf cps).length : ℚ))
      ∧ averageLoss cps =
          (if lossesOf cps = [] then 0 else (lossesOf cps).sum / ((lossesOf cps).length : ℚ))
      ∧ ((0 < averageLoss cps ∧ riskReward cps = some (averageProfit cps / averageLoss cps))
          ∨ (averageLoss cps ≤ 0 ∧ riskReward cps = none)) := by
  intro cps
  refine ⟨?_, ?_, ?_, ?_⟩
  · unfold winRate
    rcases cps with _ | ⟨c, cs⟩
    · simp
    · simp [winsOf_length]
  · unfold averageProfit
    by_cases h : winsOf cps = [] <;> simp [h, List.length_eq_zero]
  · unfold averageLoss
    by_cases h : lossesOf cps = [] <;> simp [h, List.length_eq_zero]
  · by_cases h : 0 < averageLoss cps
    · exact Or.inl ⟨h, by simp [riskReward, h]⟩
    · exact Or.inr ⟨le_of_not_lt h, by simp [riskReward, h]⟩

/-- C10: for every non-empty input trade list, `trade_stats.total_trades`
equals the length of the full input list (trades the matching engine
ignores included), and `closed_lots` counts exactly the closed positions
the engine produced. -/
theorem trade_stats_counts :
    ∀ (t : Trade) (ts : List Trade),
      (calculateTradeAnalytics (t :: ts)).trade_stats.total_trades = (t :: ts).length
      ∧ (calculateTradeAnalytics (t :: ts)).trade_stats.closed_lots
          = (runEngine (sortTrades (t :: ts))).closed.length := by
  intro t ts
  constructor
  · have h : (sortTrades (t :: ts)).length = (t :: ts).length := by
      unfold sortTrades; exact @List.length_insertionSort _ tradeOrder _ (t :: ts)
    simp [calculateTradeAnalytics, h]
  · simp [calculateTradeAnalytics]

lemma foldl_mddStep_fst (l : List ℚ) (e pk m : ℚ) :
    (l.foldl mddStep (e, pk, m)).1 = e + l.sum := by
  induction l generalizing e pk m with
  | nil => simp
  | cons p l ih =>
    simp only [List.foldl_cons, mddStep, List.sum_cons]
    rw [ih]
    ring

lemma cumAt_append_left {l : List ℚ} (p : ℚ) {i : ℕ} (h : i ≤ l.length) :
    cumAt (l ++ [p]) i = cumAt l i := by
  simp [cumAt, List.take_append_of_le_length h]

lemma cumAt_append_last (l : List ℚ) (p : ℚ) :
    cumAt (l ++ [p]) (l.length + 1) = l.sum + p := by
  have h : (l ++ [p]).length ≤ l.length + 1 := by simp
  simp [cumAt, List.take_of_length_le h]

lemma peakAt_append_left {l : List ℚ} (p : ℚ) {i : ℕ} (h : i ≤ l.length) :
    peakAt (l ++ [p]) i = peakAt l i := by
  unfold peakAt
  have hmap : (List.range (i + 1)).map (cumAt (l ++ [p]))
      = (List.range (i + 1)).map (cumAt l) := by
    refine List.map_congr_left ?_
    intro j hj
    have hj' : j ≤ l.length := by
      have := List.mem_range.mp hj
      omega
    exact cumAt_append_left p hj'
  rw [hmap]

lemma peakAt_append_last (l : List ℚ) (p : ℚ) :
    peakAt (l ++ [p]) (l.length + 1) = max (peakAt l l.length) (l.sum + p) := by
  unfold peakAt
  rw [List.range_succ, List.map_append, List.foldl_append]
  simp only [List.map_cons, List.map_nil, List.foldl_cons, List.foldl_nil]
  rw [cumAt_append_last]
  have hmap : (List.range (l.length + 1)).map (cumAt (l ++ [p]))
      = (List.range (l.length + 1)).map (cumAt l) := by
    refine List.map_congr_left ?_
    intro j hj
    have hj' : j ≤ l.length := by
      have := List.mem_range.mp hj
      omega
    exact cumAt_append_left p hj'
  rw [hmap]

lemma foldl_mddStep_peak (l : List ℚ) :
    (l.foldl mddStep (0, 0, 0)).2.1 = peakAt l l.length := by
  induction l using List.reverseRecOn with
  | nil => simp [peakAt, cumAt, List.range_succ]
  | append_singleton l p ih =>
    rw [List.foldl_append]
    simp only [List.foldl_cons, List.foldl_nil, List.length_append, List.length_cons,
      List.length_nil]
    rw [peakAt_append_last]
    simp only [mddStep]
    rw [ih, foldl_mddStep_fst]
    norm_num

lemma foldl_mddStep_mdd (l : List ℚ) :
    (l.foldl mddStep (0, 0, 0)).2.2 = specMdd l := by
  induction l using List.reverseRecOn with
  | nil => simp [specMdd, peakAt, cumAt, List.range_succ]
  | append_singleton l p ih =>
    rw [List.foldl_append]
    simp only [List.foldl_cons, List.foldl_nil]
    unfold specMdd
    rw [List.length_append, List.length_cons, List.length_nil]
    rw [List.range_succ, List.map_append, List.foldl_append]
    simp only [List.map_cons, List.map_nil, List.foldl_cons, List.foldl_nil]
    rw [cumAt_append_last, peakAt_append_last]
    have hfirst :
        ((List.range (l.length + 1)).map
            (fun i => peakAt (l ++ [p]) i - cumAt (l ++ [p]) i)).foldl max 0
          = specMdd l := by
      unfold specMdd
      congr 1
      refine List.map_congr_left ?_
      intro j hj
      have hj' : j ≤ l.length := by
        have := List.mem_range.mp hj
        omega
      rw [peakAt_append_left p hj', cumAt_append_left p hj']
    rw [hfirst]
    simp only [mddStep]
    rw [ih, foldl_mddStep_peak, foldl_mddStep_fst]
    norm_num

lemma foldl_mddStep_le (l : List ℚ) (e pk m : ℚ) :
    m ≤ (l.foldl mddStep (e, pk, m)).2.2 := by
  induction l generalizing e pk m with
  | nil => simp
  | cons p l ih =>
    simp only [List.foldl_cons, mddStep]
    exact le_trans (le_max_left _ _) (ih _ _ _)

/-- C5: `max_drawdown` equals the maximum over the closed-at-ordered
sequence of (running peak of cumulative pnl − running cumulative pnl)
with equity and peak starting at 0; it is always ≥ 0 and is 0 when
there are no closed positions. -/
theorem max_drawdown_spec :
    ∀ cps : List ClosedPos,
      maxDrawdown cps = specMdd ((sortClosed cps).map (·.pnl))
      ∧ 0 ≤ maxDrawdown cps
      ∧ maxDrawdown ([] : List ClosedPos) = 0 := by
  intro cps
  refine ⟨foldl_mddStep_mdd _, foldl_mddStep_le _ 0 0 0, rfl⟩

lemma lotQty_append (a b : List OpenLot) : lotQty (a ++ b) = lotQty a + lotQty b := by
  simp [lotQty]

lemma matchedQty_append (a b : List ClosedPos) (k : InstKey) :
    matchedQty (a ++ b) k = matchedQty a k + matchedQty b k := by
  simp [matchedQty, List.filter_append]

lemma matchLoop_spec (isBuy : Bool) (price : ℚ) (tAt : DateTime) (ot sk : String)
    (key : InstKey) :
    ∀ (q : List OpenLot) (rem : ℕ),
      (∀ c ∈ (matchLoop isBuy price tAt ot sk key rem q).1, c.key = key)
      ∧ ((matchLoop isBuy price tAt ot sk key rem q).1.map (·.matched)).sum
          + lotQty (matchLoop isBuy price tAt ot sk key rem q).2.1 = lotQty q
      ∧ ((matchLoop isBuy price tAt ot sk key rem q).1.map (·.matched)).sum
          + (matchLoop isBuy price tAt ot sk key rem q).2.2 = rem := by
  intro q
  induction q with
  | nil => intro rem; simp [matchLoop, lotQty]
  | cons lot rest ih =>
    intro rem
    by_cases h0 : rem = 0
    · subst h0; simp [matchLoop, lotQty]
    · have hmin1 : min rem lot.quantity ≤ lot.quantity := Nat.min_le_right _ _
      have hmin2 : min rem lot.quantity ≤ rem := Nat.min_le_left _ _
      by_cases h1 : lot.quantity - min rem lot.quantity = 0
      · obtain ⟨ihk, ihs, ihr⟩ := ih (rem - min rem lot.quantity)
        simp only [matchLoop, if_neg h0, if_pos h1]
        refine ⟨?_, ?_, ?_⟩
        · intro c hc
          rcases List.mem_cons.mp hc with hc | hc
          · subst hc; rfl
          · exact ihk c hc
        · simp only [List.map_cons, List.sum_cons, lotQty, List.map_cons, List.sum_cons] at *
          omega
        · simp only [List.map_cons, List.sum_cons] at *
          omega
      · simp only [matchLoop, if_neg h0, if_neg h1]
        refine ⟨?_, ?_, ?_⟩
        · intro c hc
          rcases List.mem_cons.mp hc with hc | hc
          · subst hc; rfl
          · simp at hc
        · simp only [List.map_cons, List.map_nil, List.sum_cons, List.sum_nil, lotQty] at *
          omega
        · simp only [List.map_cons, List.map_nil, List.sum_cons, List.sum_nil] at *
          omega

lemma matchedQty_of_all {cs : List ClosedPos} {k : InstKey} (h : ∀ c ∈ cs, c.key = k) :
    matchedQty cs k = (cs.map (·.matched)).sum := by
  unfold matchedQty
  rw [List.filter_eq_self.mpr]
  intro c hc
  simp [h c hc]

lemma matchedQty_of_none {cs : List ClosedPos} {k k' : InstKey}
    (h : ∀ c ∈ cs, c.key = k) (hne : k' ≠ k) : matchedQty cs k' = 0 := by
  unfold matchedQty
  rw [List.filter_eq_nil_iff.mpr]
  · simp
  · intro c hc
    simp only [decide_eq_true_eq]
    rw [h c hc]
    exact fun heq => hne heq.symm

lemma step_preserves (t : Trade) (s : EngineState) (h : consInv s) : consInv (step s t) := by
  unfold step
  by_cases hq : t.quantity ≤ 0
  · simpa [hq] using h
  rw [if_neg hq]
  by_cases hside : upperStr t.side = "BUY" ∨ upperStr t.side = "SELL"
  · rw [if_pos hside]
    by_cases hbuy : upperStr t.side = "BUY"
    · rw [if_pos hbuy]
      intro k
      set ot := normalizeOptionType t.option_type t.symbol with hot
      set sk := (match t.strike with | some v => formatFixed 2 v | none => "UNKNOWN") with hsk
      set key := instrumentKey t ot with hkey
      set r := matchLoop true t.price t.traded_at ot sk key t.quantity.toNat
        (s.openShorts key) with hr
      obtain ⟨hks, hsum, hrem⟩ :=
        matchLoop_spec true t.price t.traded_at ot sk key (s.openShorts key) t.quantity.toNat
      rw [← hr] at hks hsum hrem
      have hk0 := h key
      have hkk := h k
      dsimp only
      split_ifs with hpos
      · by_cases hk : k = key
        · subst hk
          simp only [updFn, eq_self_iff_true, if_true, matchedQty_append,
            matchedQty_of_all hks, lotQty, List.map_append, List.map_cons, List.map_nil,
            List.sum_append, List.sum_cons, List.sum_nil] at hk0 hsum hrem ⊢
          omega
        · simp only [updFn, if_neg hk, matchedQty_append, matchedQty_of_none hks hk,
            lotQty] at hkk ⊢
          omega
      · by_cases hk : k = key
        · subst hk
          simp only [updFn, eq_self_iff_true, if_true, matchedQty_append,
            matchedQty_of_all hks, lotQty, List.map_append, List.map_cons, List.map_nil,
            List.sum_append, List.sum_cons, List.sum_nil] at hk0 hsum hrem ⊢
          omega
        · simp only [updFn, if_neg hk, matchedQty_append, matchedQty_of_none hks hk,
            lotQty] at hkk ⊢
          omega
    · rw [if_neg hbuy]
      intro k
      set ot := normalizeOptionType t.option_type t.symbol with hot
      set sk := (match t.strike with | some v => formatFixed 2 v | none => "UNKNOWN") with hsk
      set key := instrumentKey t ot with hkey
      set r := matchLoop false t.price t.traded_at ot sk key t.quantity.toNat
        (s.openLongs key) with hr
      obtain ⟨hks, hsum, hrem⟩ :=
        matchLoop_spec false t.price t.traded_at ot sk key (s.openLongs key) t.quantity.toNat
      rw [← hr] at hks hsum hrem
      have hk0 := h key
      have hkk := h k
      dsimp only
      split_ifs with hpos
      · by_cases hk : k = key
        · subst hk
          simp only [updFn, eq_self_iff_true, if_true, matchedQty_append,
            matchedQty_of_all hks, lotQty, List.map_append, List.map_cons, List.map_nil,
            List.sum_append, List.sum_cons, List.sum_nil] at hk0 hsum hrem ⊢
          omega
        · simp only [updFn, if_neg hk, matchedQty_append, matchedQty_of_none hks hk,
            lotQty] at hkk ⊢
          omega
      · by_cases hk : k = key
        · subst hk
          simp only [updFn, eq_self_iff_true, if_true, matchedQty_append,
            matchedQty_of_all hks, lotQty, List.map_append, List.map_cons, List.map_nil,
            List.sum_append, List.sum_cons, List.sum_nil] at hk0 hsum hrem ⊢
          omega
        · simp only [updFn, if_neg hk, matchedQty_append, matchedQty_of_none hks hk,
            lotQty] at hkk ⊢
          omega
  · simpa [hside] using h

lemma initState_consInv : consInv initState := by
  intro k
  simp [initState, matchedQty, lotQty]

lemma foldl_step_consInv (l : List Trade) :
    ∀ s : EngineState, consInv s → consInv (l.foldl step s) := by
  induction l with
  | nil => intro s hs; simpa using hs
  | cons t l ih =>
    intro s hs
    simpa [List.foldl_cons] using ih (step s t) (step_preserves t s hs)

/-- C2: quantity conservation.  For every input trade list, every prefix
of the time-ordered sequence and every instrument key, the total
quantity of lots opened for that key equals the total matched (closed)
quantity for that key plus the quantity remaining in that key's long and
short open queues. -/
theorem quantity_conservation :
    ∀ (trades : List Trade) (n : ℕ) (k : InstKey),
      (runEngine ((sortTrades trades).take n)).opened k
        = matchedQty (runEngine ((sortTrades trades).take n)).closed k
          + lotQty ((runEngine ((sortTrades trades).take n)).openLongs k)
          + lotQty ((runEngine ((sortTrades trades).take n)).openShorts k) := by
  intro trades n k
  exact foldl_step_consInv ((sortTrades trades).take n) initState initState_consInv k

/-- C7 counterexample. -/
theorem statement_stop_cex :
    headerCols (c7Rows.getD 0 []) = some ⟨1, 2, 3, 4, none, none⟩
    ∧ (readBlock ⟨1, 2, 3, 4, none, none⟩ "contract_level" (c7Rows.getD 0 [])
        (fun _ => none) ⟨2024, 1, 1⟩ [c7Rows.getD 1 []]).2 = 1
    ∧ (readBlock ⟨1, 2, 3, 4, none, none⟩ "contract_level" (c7Rows.getD 0 [])
        (fun _ => none) ⟨2024, 1, 1⟩ [c7Rows.getD 1 []]).1.length = 2
    ∧ cellAt (c7Rows.getD 1 []) 0 = "total"
    ∧ normalizeCol "total" ∈ stmtStopTokens := by
  exact ⟨by with_unfolding_all rfl, by with_unfolding_all rfl, by with_unfolding_all rfl,
    rfl, by decide⟩

/-- C7 amended. -/
theorem statement_stop_amended :
    ∀ (cols : StmtCols) (sf : String) (hdr : List String)
      (pd : String → Option YmdDate) (today : YmdDate) (rows : List (List String)),
      (readBlock cols sf hdr pd today rows).2 = rows.findIdx (stmtStopHere cols) := by
  intro cols sf hdr pd today rows
  induction rows with
  | nil => simp [readBlock]
  | cons row rest ih =>
    rw [List.findIdx_cons]
    by_cases hb : isBlankRow row
    · simp [readBlock, hb, stmtStopHere]
    · have hb' : isBlankRow row = false := by simpa using hb
      by_cases hs : cellAt row cols.symbolIdx = ""
      · have hpred : stmtStopHere cols row = false := by
          simp [stmtStopHere, hb, hs]
        simp [readBlock, hb', hs, hpred, ih]
      · by_cases hstop : normalizeCol (cellAt row cols.symbolIdx) ∈ stmtStopTokens
        · have hnr : normalizeCol (cellAt row cols.symbolIdx) ∉
              (["scripname", "futures", "options"] : List String) := by
            intro hmem
            revert hstop
            rcases List.mem_cons.mp hmem with h | h2
            · rw [h]; decide
            rcases List.mem_cons.mp h2 with h | h3
            · rw [h]; decide
            rcases List.mem_cons.mp h3 with h | h4
            · rw [h]; decide
            · exact absurd h4 (List.not_mem_nil _)
          have hpred : stmtStopHere cols row = true := by
            simp [stmtStopHere, hs, hstop]
          simp [readBlock, hb', hs, hstop, hnr, hpred]
        · have hpred : stmtStopHere cols row = false := by
            simp [stmtStopHere, hb', hstop]
          rw [hpred]
          simp only [cond_false]
          by_cases hhd : normalizeCol (cellAt row cols.symbolIdx) ∈
              (["scripname", "futures", "options"] : List String)
          · simp [readBlock, hb', hs, hhd, ih]
          · simp only [readBlock, hb', hs, hhd, hstop, if_neg, if_false]
            rw [if_neg (by decide : ¬(false = true))]
            split
            · split_ifs <;> simp [ih]
            · simp [ih]
